import Mathlib

/-!
Verification of the deal-value normalization and quarterly aggregation
pipeline of the medtech dashboard (src/app.py).

Numeric cell values are modelled as rationals.  Python floats are
idealized as exact rationals: every claim settled here depends only on
values far from the precision limits of binary doubles, and the string
`float(...)` / `str(...)` round trip is the identity on Python floats.

A spreadsheet cell value is modelled by `PyVal`: a number, a string, or
the missing marker (`PyVal.null`, that is, a pandas `NaN` cell, for which
`pd.isna` is true).  The loader `load_data` (src/app.py:123-133) replaces
every missing cell by the string literal `"Undisclosed"` (or `"--"` for
the Conference column) before any pipeline code runs, so deal records
reaching the aggregation code carry only numeric or string amounts; the
record model `DealRecord` therefore uses `Amt` (number or string) for the
amount field, while the cell parsers keep the full `PyVal` domain because
their code has an explicit `pd.isna` branch.
-/

/-- Model of the ASCII whitespace set recognized by Python `str.strip()`
and by `float(...)` / `int(...)` around a literal. -/
def isSpaceC (c : Char) : Bool :=
  c == ' ' || c == '\t' || c == '\n' || c == '\r' || c == '\x0b' || c == '\x0c'

/-- Decimal digit test for the Python numeric grammar. -/
def isDigitC (c : Char) : Bool :=
  c == '0' || c == '1' || c == '2' || c == '3' || c == '4' ||
  c == '5' || c == '6' || c == '7' || c == '8' || c == '9'

/-- Value of a decimal digit character. -/
def digitVal (c : Char) : ℕ :=
  if c == '1' then 1 else if c == '2' then 2 else if c == '3' then 3
  else if c == '4' then 4 else if c == '5' then 5 else if c == '6' then 6
  else if c == '7' then 7 else if c == '8' then 8 else if c == '9' then 9
  else 0

/-- Decimal digit character of a value below ten. -/
def digitOfNat (d : ℕ) : Char :=
  if d = 1 then '1' else if d = 2 then '2' else if d = 3 then '3'
  else if d = 4 then '4' else if d = 5 then '5' else if d = 6 then '6'
  else if d = 7 then '7' else if d = 8 then '8' else if d = 9 then '9'
  else '0'

/-- Numeric value of a big-endian digit string. -/
def natOfDigits (cs : List Char) : ℕ :=
  cs.foldl (fun a c => 10 * a + digitVal c) 0

/-- Python `str.strip()` on a character list: drop leading and trailing
whitespace. -/
def trimWs (cs : List Char) : List Char :=
  ((cs.dropWhile isSpaceC).reverse.dropWhile isSpaceC).reverse

/-!
The float grammar is parsed into an exact decimal representation
`(mantissa, exponent) : ℤ × ℤ`, standing for `mantissa * 10 ^ exponent`.
Every field of the representation is an integer, so parse results of
concrete strings evaluate inside the kernel; the rational value of a
representation is taken by `repToRat` at the very end.
-/

/-- Exponent digits of the Python float grammar, shifting the decimal
exponent `e0` of mantissa `mant`.  Empty or non-digit exponent text
fails. -/
def parseExpDigits (ds : List Char) (mant : ℤ) (e0 : ℤ) (neg : Bool) :
    Option (ℤ × ℤ) :=
  if ds.isEmpty || !(ds.all isDigitC) then none
  else some (mant, if neg then e0 - natOfDigits ds else e0 + natOfDigits ds)

/-- Optional sign of the exponent part of the Python float grammar. -/
def parseExpSign (cs : List Char) (mant : ℤ) (e0 : ℤ) : Option (ℤ × ℤ) :=
  match cs with
  | [] => none
  | c :: r =>
    if c = '+' then parseExpDigits r mant e0 false
    else if c = '-' then parseExpDigits r mant e0 true
    else parseExpDigits (c :: r) mant e0 false

/-- Tail after the mantissa of the Python float grammar: either nothing or
an exponent introduced by `e` / `E`. -/
def parseExpTail (cs : List Char) (mant : ℤ) (e0 : ℤ) : Option (ℤ × ℤ) :=
  match cs with
  | [] => some (mant, e0)
  | c :: r => if c = 'e' ∨ c = 'E' then parseExpSign r mant e0 else none

/-- Unsigned part of the Python float grammar: digits with an optional
decimal point (at least one digit overall) and an optional exponent. -/
def parsePos (cs : List Char) : Option (ℤ × ℤ) :=
  let ip := cs.takeWhile isDigitC
  let r1 := cs.dropWhile isDigitC
  match r1 with
  | [] => if ip.isEmpty then none else some ((natOfDigits ip : ℤ), 0)
  | c :: r =>
    if c = '.' then
      let fp := r.takeWhile isDigitC
      let r2 := r.dropWhile isDigitC
      if ip.isEmpty && fp.isEmpty then none
      else parseExpTail r2 (natOfDigits (ip ++ fp) : ℤ) (-(fp.length : ℤ))
    else if ip.isEmpty then none
    else parseExpTail r1 ((natOfDigits ip : ℤ)) 0

/-- Decimal representation of the Python float grammar: optional
surrounding whitespace, optional sign, then the unsigned grammar.  Failure
(`ValueError`) is `none`.  The `inf` / `nan` words and digit-group
underscores accepted by Python are not modelled; no input in this
development exercises them. -/
def parseFloatRep (cs : List Char) : Option (ℤ × ℤ) :=
  match trimWs cs with
  | [] => none
  | c :: r =>
    if c = '+' then parsePos r
    else if c = '-' then (parsePos r).map (fun p => (-p.1, p.2))
    else parsePos (c :: r)

/-- Rational value of a decimal representation. -/
def repToRat (p : ℤ × ℤ) : ℚ := (p.1 : ℚ) * 10 ^ p.2

/-- Model of the Python builtin `float(str)` on a character list, as an
exact rational. -/
def parseFloatL (cs : List Char) : Option ℚ :=
  (parseFloatRep cs).map repToRat

/-- Model of the Python builtin `int(str)`: optional sign and a nonempty
run of decimal digits (surrounding whitespace is tolerated by Python but
the call sites below feed whitespace-free tokens). -/
def pyIntDigits (ds : List Char) : Option ℤ :=
  if ds.isEmpty || !(ds.all isDigitC) then none
  else some ((natOfDigits ds : ℤ))

/-- Signed integer literal, the Python `int(str)` model. -/
def pyIntL (cs : List Char) : Option ℤ :=
  match trimWs cs with
  | [] => none
  | c :: r =>
    if c = '+' then pyIntDigits r
    else if c = '-' then (pyIntDigits r).map (fun x => -x)
    else pyIntDigits (c :: r)

/-- Python `str.split()` with no separator argument: split on runs of
whitespace, returning no empty words. -/
def splitWsAux (cs : List Char) (acc : List Char) : List (List Char) :=
  match cs with
  | [] => if acc.isEmpty then [] else [acc.reverse]
  | c :: rest =>
    if isSpaceC c then
      if acc.isEmpty then splitWsAux rest [] else acc.reverse :: splitWsAux rest []
    else splitWsAux rest (c :: acc)

/-- Python `str.split()` on a character list. -/
def pySplitWs (cs : List Char) : List (List Char) := splitWsAux cs []

/-! ## Cell values and deal records -/

/-- A spreadsheet cell value as seen by the Python code: a float, a
string, or a missing cell (pandas `NaN`). -/
inductive PyVal where
  | num (q : ℚ)
  | str (s : String)
  | null
deriving DecidableEq

/-- Amount cell of a deal record.  After `load_data` (src/app.py:123-133)
has replaced every missing cell by the string `"Undisclosed"`, amount
cells handed to the pipeline are numbers or strings, never `NaN`. -/
inductive Amt where
  | num (q : ℚ)
  | str (s : String)
deriving DecidableEq

/-- Amount cell viewed as a plain cell value. -/
def Amt.toPy : Amt → PyVal
  | .num q => .num q
  | .str s => .str s

/-- Model of `pd.isna` on a cell value. -/
def pdIsna : PyVal → Bool
  | .null => true
  | _ => false

/-- A deal record, restricted to the fields the aggregation pipeline
reads.  `company` is a plain string: the loader fills every missing cell,
so a `count` aggregation over the Company column counts all rows. -/
structure DealRecord where
  company : String
  quarter : String
  amount : Amt
deriving DecidableEq

/-! ## The cell parsers of src/app.py

Each of the following definitions translates one of the ad hoc
currency-string parsers of the source.  `str(val)` applied to a float is
modelled as the identity on the numeric value: Python round-trips a float
through its shortest decimal representation exactly, and that
representation never contains the characters stripped by the parsers. -/

/-- Characters removed by `.replace` chains: remove every occurrence of
one character (Python `s.replace(c, "")`). -/
def removeChar (cs : List Char) (c : Char) : List Char :=
  cs.filter (fun x => x ≠ c)

/-- The strip chain `.replace("$","").replace(",","")`. -/
def stripDollarComma (cs : List Char) : List Char :=
  removeChar (removeChar cs '$') ','

/-- The strip chain
`.replace("$","").replace("B","").replace("M","").replace(",","")`. -/
def stripDollarBMComma (cs : List Char) : List Char :=
  removeChar (removeChar (removeChar (removeChar cs '$') 'B') 'M') ','

/-- The value lambda of `create_quarterly_chart` (src/app.py:531-533):
`float(str(v).replace("$","").replace("B","").replace("M","").replace(",",""))
if v != "Undisclosed" else 0`.  There is no try/except around it: a string
failing to parse raises, which the enclosing function turns into a `None`
chart; the failure is `none` here. -/
def chartCell (a : Amt) : Option ℚ :=
  match a with
  | .num q => some q
  | .str s =>
    if s = "Undisclosed" then some 0
    else parseFloatL (stripDollarBMComma s.data)

/-- The first `parse_to_numeric` of `show_deal_activity`
(src/app.py:948-955): strips `$` and `,`, maps `Undisclosed`, missing and
unparseable values to `0`. -/
def parse_to_numeric (val : PyVal) : ℚ :=
  match val with
  | .null => 0
  | .num q => q
  | .str s =>
    if s = "Undisclosed" then 0
    else
      match parseFloatL (trimWs (stripDollarComma s.data)) with
      | some v => v
      | none => 0

/-- The second `parse_to_numeric` of `show_deal_activity`
(src/app.py:1036-1043), the one in scope at the top-deals ranking
(src/app.py:1071-1073): like the first but with sentinel `-1`. -/
def parse_to_numeric_sort (val : PyVal) : ℚ :=
  match val with
  | .null => -1
  | .num q => q
  | .str s =>
    if s = "Undisclosed" then -1
    else
      match parseFloatL (trimWs (stripDollarComma s.data)) with
      | some v => v
      | none => -1

/-- `parse_value` of `create_sunburst_chart` (src/app.py:782-789): strips
`$`, `B`, `M`, `,`, sentinel `0`. -/
def sun_parse_value (val : PyVal) : ℚ :=
  match val with
  | .null => 0
  | .num q => q
  | .str s =>
    if s = "Undisclosed" then 0
    else
      match parseFloatL (trimWs (stripDollarBMComma s.data)) with
      | some v => v
      | none => 0

/-- `parse_value` of `calc_quarterly_stats` (src/app.py:1232-1239): strips
`$` and `,`, sentinel `0`, with explicit empty-string and `None` checks. -/
def calc_parse_value (val : PyVal) : ℚ :=
  match val with
  | .null => 0
  | .num q => q
  | .str s =>
    if s = "Undisclosed" then 0
    else if s = "" then 0
    else
      match parseFloatL (trimWs (stripDollarComma s.data)) with
      | some v => v
      | none => 0

/-- `parse_value_for_sorting` of `show_conferences` (src/app.py:1935-1943):
strips `$`, `B`, `M`, `,`, sentinel `0`. -/
def parse_value_for_sorting (val : PyVal) : ℚ :=
  match val with
  | .null => 0
  | .num q => q
  | .str s =>
    if s = "Undisclosed" then 0
    else
      match parseFloatL (trimWs (stripDollarBMComma s.data)) with
      | some v => v
      | none => 0

/-! ## Currency formatting (src/app.py:361-408) -/

/-- Round-half-even on rationals, the rounding used by Python float
formatting with a fixed number of decimals. -/
def roundHalfEven (q : ℚ) : ℤ :=
  let n := ⌊q⌋
  let f := q - n
  if f < 1/2 then n
  else if 1/2 < f then n + 1
  else if n % 2 = 0 then n else n + 1

/-- Big-endian decimal digits of a natural number, with explicit fuel so
the definition is structural (the fuel `n + 1` always suffices). -/
def toDigitsA (fuel n : ℕ) (acc : List Char) : List Char :=
  match fuel with
  | 0 => acc
  | fuel + 1 =>
    if n < 10 then digitOfNat n :: acc
    else toDigitsA fuel (n / 10) (digitOfNat (n % 10) :: acc)

/-- Decimal rendering of a natural number. -/
def natDecimal (n : ℕ) : List Char := toDigitsA (n + 1) n []

/-- Comma grouping of a little-endian digit list: a comma after every
three characters, as in the Python format spec `{:,}` read from the right
end. -/
def commaGroup : List Char → List Char
  | a :: b :: c :: rest =>
    match rest with
    | [] => [a, b, c]
    | _ :: _ => a :: b :: c :: ',' :: commaGroup rest
  | l => l

/-- Rendering of a natural number by the Python format spec `{:,.0f}`
after rounding: decimal digits with thousands separators. -/
def commaFmtN (n : ℕ) : List Char :=
  (commaGroup (natDecimal n).reverse).reverse

/-- Rendering of a nonnegative rational by the Python format spec
`{:,.0f}`: round half-even to an integer, comma-group the digits. -/
def fmtComma0f (q : ℚ) : String :=
  String.mk (commaFmtN (roundHalfEven q).toNat)

/-- Rendering of a nonnegative rational by the Python format spec `{:.1f}`:
one decimal digit, round half-even, no grouping. -/
def fmt1dp (q : ℚ) : String :=
  let m := (roundHalfEven (10 * q)).toNat
  String.mk (natDecimal (m / 10)) ++ "." ++ String.mk (natDecimal (m % 10))

/-- `format_currency_full` (src/app.py:397-408): missing and
`"Undisclosed"` cells format to `"Undisclosed"`; otherwise the value is
parsed (stripping `$`, `B`, `M`, `,`); positive values render as
`"$" + {:,.0f}`, zero and negative values render as `"Undisclosed"`, and a
parse failure returns `str(value)` unchanged. -/
def format_currency_full (value : PyVal) : String :=
  match value with
  | .null => "Undisclosed"
  | .num q => if q > 0 then "$" ++ fmtComma0f q else "Undisclosed"
  | .str s =>
    if s = "Undisclosed" then "Undisclosed"
    else
      match parseFloatL (stripDollarBMComma s.data) with
      | some q => if q > 0 then "$" ++ fmtComma0f q else "Undisclosed"
      | none => s

/-- The numeric branch of `format_currency_abbreviated`
(src/app.py:361-376). -/
def fmtAbbrev (q : ℚ) : String :=
  if q ≥ 1000000000 then "$" ++ fmt1dp (q / 1000000000) ++ "B"
  else if q ≥ 1000000 then "$" ++ fmt1dp (q / 1000000) ++ "M"
  else if q > 0 then "$" ++ fmtComma0f q
  else "Undisclosed"

/-- `format_currency_abbreviated` (src/app.py:361-376): like
`format_currency_full` but with `$x.yB` / `$x.yM` abbreviations above one
billion / one million. -/
def format_currency_abbreviated (value : PyVal) : String :=
  match value with
  | .null => "Undisclosed"
  | .num q => fmtAbbrev q
  | .str s =>
    if s = "Undisclosed" then "Undisclosed"
    else
      match parseFloatL (stripDollarBMComma s.data) with
      | some q => fmtAbbrev q
      | none => s

/-! ## Quarter sort keys (src/app.py:540-551) -/

/-- `sort_key` of `create_quarterly_chart` (src/app.py:540-551): split the
quarter string on whitespace; with exactly two tokens, delete every `Q`
from the first and parse both with `int`, giving `(year, quarter_number)`;
on any failure return the fallback key `(9999, 99)`. -/
def sort_key (q : String) : ℤ × ℤ :=
  match pySplitWs q.data with
  | [p0, p1] =>
    match pyIntL (removeChar p0 'Q'), pyIntL p1 with
    | some qn, some y => (y, qn)
    | _, _ => (9999, 99)
  | _ => (9999, 99)

/-- Lexicographic (chronological) strict order on sort keys, the order in
which `sort_values` arranges the tuples. -/
def keyLt (a b : ℤ × ℤ) : Prop :=
  a.1 < b.1 ∨ (a.1 = b.1 ∧ a.2 < b.2)

instance : DecidableRel keyLt := fun _ _ =>
  inferInstanceAs (Decidable (_ ∨ _))

/-! ## Quarterly aggregation (src/app.py:523-536) -/

/-- Distinct elements of a list in order of first appearance, with an
accumulator of already-seen elements; the groups of a pandas `groupby` are
these keys (pandas orders them lexicographically, and the code re-sorts
by `sort_key` afterwards; no claim depends on the group order). -/
def uniqueKeysAux (cs : List String) (seen : List String) : List String :=
  match cs with
  | [] => []
  | c :: rest =>
    if c ∈ seen then uniqueKeysAux rest seen
    else c :: uniqueKeysAux rest (c :: seen)

/-- Distinct quarter keys in order of first appearance. -/
def uniqueKeys (cs : List String) : List String := uniqueKeysAux cs []

/-- Sum of the chart value lambda over the amount cells of one group;
`none` when any cell raises (propagating the exception). -/
def sumCells (l : List Amt) : Option ℚ :=
  match l with
  | [] => some 0
  | a :: rest =>
    match chartCell a, sumCells rest with
    | some v, some s => some (v + s)
    | _, _ => none

/-- Data preparation of `create_quarterly_chart` (src/app.py:523-536):
drop records whose Quarter is `"Undisclosed"`; if nothing remains, warn
and return `None`; otherwise group by Quarter and produce per group the
summed value (`Undisclosed` amount cells contributing `0`) and the record
count.  A `None` result models both the early return and the
exception-to-`None` path of the enclosing try/except. -/
def aggRows (R : List DealRecord) : List (String × Option ℚ × ℕ) :=
  (uniqueKeys ((R.filter (fun r => r.quarter ≠ "Undisclosed")).map (fun r => r.quarter))).map
    (fun q =>
      (q,
        sumCells (((R.filter (fun r => r.quarter ≠ "Undisclosed")).filter
          (fun r => r.quarter = q)).map (fun r => r.amount)),
        ((R.filter (fun r => r.quarter ≠ "Undisclosed")).filter
          (fun r => r.quarter = q)).length))

/-- Data preparation of `create_quarterly_chart`, assembled: the early
`None` return on empty filtered data, the propagated parse exception, or
the per-quarter rows. -/
def createQuarterlyData (R : List DealRecord) :
    Option (List (String × ℚ × ℕ)) :=
  if (R.filter (fun r => r.quarter ≠ "Undisclosed")).isEmpty then none
  else if (aggRows R).all (fun g => g.2.1.isSome) then
    some ((aggRows R).map (fun g => (g.1, g.2.1.getD 0, g.2.2)))
  else none

/-! ## Top deals ranking (src/app.py:1071-1073) -/

/-- Ranking key of a deal record at the top-deals tab: the in-scope
`parse_to_numeric` there is the second one, with sentinel `-1`. -/
def dealKey (r : DealRecord) : ℚ := parse_to_numeric_sort r.amount.toPy

/-- Ranking order on position-tagged records: strictly larger key first;
on equal keys, smaller original position first.  This is the order of
`nlargest(n, col)` with its default `keep="first"` tie policy. -/
def topRel (a b : ℕ × DealRecord) : Prop :=
  dealKey b.2 < dealKey a.2 ∨ (dealKey a.2 = dealKey b.2 ∧ a.1 ≤ b.1)

instance : DecidableRel topRel := fun _ _ =>
  inferInstanceAs (Decidable (_ ∨ _))

instance : IsTotal (ℕ × DealRecord) topRel where
  total a b := by
    rcases lt_trichotomy (dealKey a.2) (dealKey b.2) with h | h | h
    · exact Or.inr (Or.inl h)
    · rcases Nat.le_total a.1 b.1 with h2 | h2
      · exact Or.inl (Or.inr ⟨h, h2⟩)
      · exact Or.inr (Or.inr ⟨h.symm, h2⟩)
    · exact Or.inl (Or.inl h)

instance : IsTrans (ℕ × DealRecord) topRel where
  trans a b c hab hbc := by
    rcases hab with hab | ⟨hab, iab⟩
    · rcases hbc with hbc | ⟨hbc, _⟩
      · exact Or.inl (hbc.trans hab)
      · exact Or.inl (hbc ▸ hab)
    · rcases hbc with hbc | ⟨hbc, ibc⟩
      · exact Or.inl (hab ▸ hbc)
      · exact Or.inr ⟨hab.trans hbc, iab.trans ibc⟩

/-- Records tagged with their original positions, sorted by the ranking
order. -/
def rankedDeals (R : List DealRecord) : List (ℕ × DealRecord) :=
  List.insertionSort topRel R.enum

/-- `nlargest(n, ...)` over deal records (src/app.py:1071-1073): the `n`
records of largest key, stably ordered. -/
def top_n (n : ℕ) (R : List DealRecord) : List DealRecord :=
  ((rankedDeals R).take n).map (fun p => p.2)

/-! ## Specification-side notions -/

/-- Outcome of amount normalization as the specification describes it: a
known numeric dollar value or the explicit unknown marker. -/
inductive AmtNorm where
  | disclosed (v : ℚ)
  | undisclosed
deriving DecidableEq

/-- Normalization of an amount cell under the chart value lambda, split
into the disclosed / undisclosed outcome; `none` models the parse
exception. -/
def chartNorm (a : Amt) : Option AmtNorm :=
  match a with
  | .num q => some (.disclosed q)
  | .str s =>
    if s = "Undisclosed" then some .undisclosed
    else (parseFloatL (stripDollarBMComma s.data)).map .disclosed

/-- Contribution of a normalized amount to a group total: disclosed
amounts count, the unknown marker contributes zero. -/
def normContrib (a : Amt) : ℚ :=
  match chartNorm a with
  | some (.disclosed v) => v
  | _ => 0

/-- The records of one quarter group. -/
def groupOf (R : List DealRecord) (q : String) : List DealRecord :=
  R.filter (fun r => r.quarter = q)

/-- ASCII lowercasing of one character, modelling Python `str.lower()` on
the alphabet of interest; used to state case-insensitivity hypotheses. -/
def asciiLower (c : Char) : Char :=
  if c = 'A' then 'a' else if c = 'B' then 'b' else if c = 'C' then 'c'
  else if c = 'D' then 'd' else if c = 'E' then 'e' else if c = 'F' then 'f'
  else if c = 'G' then 'g' else if c = 'H' then 'h' else if c = 'I' then 'i'
  else if c = 'J' then 'j' else if c = 'K' then 'k' else if c = 'L' then 'l'
  else if c = 'M' then 'm' else if c = 'N' then 'n' else if c = 'O' then 'o'
  else if c = 'P' then 'p' else if c = 'Q' then 'q' else if c = 'R' then 'r'
  else if c = 'S' then 's' else if c = 'T' then 't' else if c = 'U' then 'u'
  else if c = 'V' then 'v' else if c = 'W' then 'w' else if c = 'X' then 'x'
  else if c = 'Y' then 'y' else if c = 'Z' then 'z' else c

/-! # Helper lemmas: characters, trimming, the float grammar -/

theorem isDigitC_iff (c : Char) : isDigitC c = true ↔
    c = '0' ∨ c = '1' ∨ c = '2' ∨ c = '3' ∨ c = '4' ∨
    c = '5' ∨ c = '6' ∨ c = '7' ∨ c = '8' ∨ c = '9' := by
  simp [isDigitC]
  tauto

theorem digit_not_special {c : Char} (h : isDigitC c = true) :
    c ≠ '+' ∧ c ≠ '-' ∧ c ≠ '.' ∧ c ≠ ',' ∧ c ≠ '$' ∧ isSpaceC c = false := by
  rcases (isDigitC_iff c).mp h with rfl | rfl | rfl | rfl | rfl | rfl | rfl | rfl | rfl | rfl <;>
    exact (by decide)

theorem dropWhile_eq_self_of_none {p : Char → Bool} {l : List Char}
    (h : ∀ c ∈ l, p c = false) : l.dropWhile p = l := by
  cases l with
  | nil => rfl
  | cons a t => simp [List.dropWhile_cons, h a (by simp)]

theorem takeWhile_eq_nil_of_none {p : Char → Bool} {l : List Char}
    (h : ∀ c ∈ l, p c = false) : l.takeWhile p = [] := by
  cases l with
  | nil => rfl
  | cons a t => simp [List.takeWhile_cons, h a (by simp)]

theorem dropWhile_eq_nil_of_all {p : Char → Bool} {l : List Char}
    (h : ∀ c ∈ l, p c = true) : l.dropWhile p = [] := by
  induction l with
  | nil => rfl
  | cons a t ih =>
    simp [List.dropWhile_cons, h a (by simp), ih (fun c hc => h c (by simp [hc]))]

theorem trimWs_eq_self {l : List Char} (h : ∀ c ∈ l, isSpaceC c = false) :
    trimWs l = l := by
  unfold trimWs
  rw [dropWhile_eq_self_of_none h, dropWhile_eq_self_of_none (by simpa using h)]
  simp

theorem mem_of_mem_trimWs {c : Char} {l : List Char} (h : c ∈ trimWs l) : c ∈ l := by
  unfold trimWs at h
  rw [List.mem_reverse] at h
  have h2 := (List.dropWhile_sublist _).mem h
  rw [List.mem_reverse] at h2
  exact (List.dropWhile_sublist _).mem h2

theorem mem_of_mem_removeChar {c x : Char} {l : List Char}
    (h : c ∈ removeChar l x) : c ∈ l :=
  List.mem_of_mem_filter h

theorem removeChar_eq_self {l : List Char} {x : Char} (h : x ∉ l) :
    removeChar l x = l := by
  unfold removeChar
  rw [List.filter_eq_self]
  intro a ha
  simp only [decide_eq_true_eq]
  rintro rfl
  exact h ha

theorem parsePos_none_of_no_digit {cs : List Char}
    (h : ∀ c ∈ cs, isDigitC c = false) : parsePos cs = none := by
  have htw : cs.takeWhile isDigitC = [] := takeWhile_eq_nil_of_none h
  have hdw : cs.dropWhile isDigitC = cs := dropWhile_eq_self_of_none h
  unfold parsePos
  rw [htw, hdw]
  cases cs with
  | nil => rfl
  | cons a t =>
    simp only [List.isEmpty_nil]
    by_cases ha : a = '.'
    · subst ha
      have htw2 : t.takeWhile isDigitC = [] :=
        takeWhile_eq_nil_of_none (fun c hc => h c (by simp [hc]))
      simp [htw2]
    · simp [ha]

theorem parseFloatRep_none_of_no_digit {cs : List Char}
    (h : ∀ c ∈ cs, isDigitC c = false) : parseFloatRep cs = none := by
  have h2 : ∀ c ∈ trimWs cs, isDigitC c = false :=
    fun c hc => h c (mem_of_mem_trimWs hc)
  unfold parseFloatRep
  rcases htr : trimWs cs with _ | ⟨c, r⟩
  · rfl
  · rw [htr] at h2
    have hr : ∀ x ∈ r, isDigitC x = false := fun x hx => h2 x (by simp [hx])
    by_cases hc1 : c = '+'
    · simp [hc1, parsePos_none_of_no_digit hr]
    · by_cases hc2 : c = '-'
      · simp [hc1, hc2, parsePos_none_of_no_digit hr]
      · simp [hc1, hc2, parsePos_none_of_no_digit h2]

theorem parseFloatL_none_of_no_digit {cs : List Char}
    (h : ∀ c ∈ cs, isDigitC c = false) : parseFloatL cs = none := by
  unfold parseFloatL
  rw [parseFloatRep_none_of_no_digit h]
  rfl

theorem parsePos_digits {ds : List Char} (h0 : ds ≠ [])
    (h : ∀ c ∈ ds, isDigitC c = true) : parsePos ds = some ((natOfDigits ds : ℤ), 0) := by
  have htw : ds.takeWhile isDigitC = ds := List.takeWhile_eq_self_iff.mpr h
  have hdw : ds.dropWhile isDigitC = [] := dropWhile_eq_nil_of_all h
  unfold parsePos
  rw [htw, hdw]
  simp [h0]

theorem parseFloatRep_digits {ds : List Char} (h0 : ds ≠ [])
    (h : ∀ c ∈ ds, isDigitC c = true) :
    parseFloatRep ds = some ((natOfDigits ds : ℤ), 0) := by
  have htr : trimWs ds = ds :=
    trimWs_eq_self (fun c hc => (digit_not_special (h c hc)).2.2.2.2.2)
  cases ds with
  | nil => exact absurd rfl h0
  | cons c r =>
    have hc := digit_not_special (h c (by simp))
    unfold parseFloatRep
    rw [htr]
    simp only [hc.1, hc.2.1, if_false, ite_false]
    exact parsePos_digits h0 h

theorem repToRat_nat (n : ℕ) : repToRat ((n : ℤ), 0) = (n : ℚ) := by
  unfold repToRat
  norm_num

theorem parseFloatL_digits {ds : List Char} (h0 : ds ≠ [])
    (h : ∀ c ∈ ds, isDigitC c = true) :
    parseFloatL ds = some ((natOfDigits ds : ℚ)) := by
  unfold parseFloatL
  rw [parseFloatRep_digits h0 h]
  simp [repToRat_nat]

/-! # Helper lemmas: decimal rendering -/

theorem digitVal_digitOfNat {d : ℕ} (h : d < 10) : digitVal (digitOfNat d) = d := by
  interval_cases d <;> rfl

theorem isDigitC_digitOfNat {d : ℕ} (h : d < 10) : isDigitC (digitOfNat d) = true := by
  interval_cases d <;> rfl

theorem toDigitsA_succ (f n : ℕ) (acc : List Char) :
    toDigitsA (f + 1) n acc =
      if n < 10 then digitOfNat n :: acc
      else toDigitsA f (n / 10) (digitOfNat (n % 10) :: acc) := rfl

theorem toDigitsA_fuel_irrel (n : ℕ) : ∀ f g acc, n < f → n < g →
    toDigitsA f n acc = toDigitsA g n acc := by
  induction n using Nat.strong_induction_on with
  | _ n ih =>
    intro f g acc hf hg
    match f, g with
    | f + 1, g + 1 =>
      by_cases h10 : n < 10
      · rw [toDigitsA_succ, toDigitsA_succ, if_pos h10, if_pos h10]
      · have hd : n / 10 < n := Nat.div_lt_self (by omega) (by omega)
        rw [toDigitsA_succ, toDigitsA_succ, if_neg h10, if_neg h10]
        exact ih _ hd _ _ _ (by omega) (by omega)

theorem toDigitsA_fuel (f n : ℕ) (acc : List Char) (h : n < f) :
    toDigitsA f n acc = toDigitsA (n + 1) n acc :=
  toDigitsA_fuel_irrel n f (n + 1) acc h (by omega)

theorem toDigitsA_append (f : ℕ) : ∀ n acc, n < f →
    toDigitsA f n acc = toDigitsA f n [] ++ acc := by
  induction f with
  | zero => intro n acc h; omega
  | succ f ih =>
    intro n acc h
    by_cases h10 : n < 10
    · rw [toDigitsA_succ, toDigitsA_succ, if_pos h10, if_pos h10]
      rfl
    · have hd : n / 10 < n := Nat.div_lt_self (by omega) (by omega)
      rw [toDigitsA_succ, if_neg h10, toDigitsA_succ, if_neg h10,
        ih _ _ (by omega), ih (n / 10) ([digitOfNat (n % 10)]) (by omega)]
      simp

theorem natDecimal_ge_ten {n : ℕ} (h : 10 ≤ n) :
    natDecimal n = natDecimal (n / 10) ++ [digitOfNat (n % 10)] := by
  unfold natDecimal
  have hd : n / 10 < n := Nat.div_lt_self (by omega) (by omega)
  rw [toDigitsA_succ, if_neg (by omega), toDigitsA_fuel n (n / 10) _ hd,
    toDigitsA_append (n / 10 + 1) (n / 10) _ (by omega)]

theorem natDecimal_lt_ten {n : ℕ} (h : n < 10) : natDecimal n = [digitOfNat n] := by
  unfold natDecimal
  rw [toDigitsA_succ, if_pos h]

theorem natOfDigits_append_digit (xs : List Char) (c : Char) :
    natOfDigits (xs ++ [c]) = 10 * natOfDigits xs + digitVal c := by
  unfold natOfDigits
  rw [List.foldl_append]
  rfl

theorem natOfDigits_natDecimal (n : ℕ) : natOfDigits (natDecimal n) = n := by
  induction n using Nat.strong_induction_on with
  | _ n ih =>
    by_cases h10 : n < 10
    · rw [natDecimal_lt_ten h10]
      unfold natOfDigits
      simp [digitVal_digitOfNat h10]
    · have hd : n / 10 < n := Nat.div_lt_self (by omega) (by omega)
      rw [natDecimal_ge_ten (by omega), natOfDigits_append_digit, ih _ hd,
        digitVal_digitOfNat (Nat.mod_lt _ (by omega))]
      omega

theorem natDecimal_all_digits (n : ℕ) : ∀ c ∈ natDecimal n, isDigitC c = true := by
  induction n using Nat.strong_induction_on with
  | _ n ih =>
    intro c hc
    by_cases h10 : n < 10
    · rw [natDecimal_lt_ten h10] at hc
      simp at hc
      subst hc
      exact isDigitC_digitOfNat h10
    · have hd : n / 10 < n := Nat.div_lt_self (by omega) (by omega)
      rw [natDecimal_ge_ten (by omega)] at hc
      rcases List.mem_append.mp hc with hc | hc
      · exact ih _ hd c hc
      · simp at hc
        subst hc
        exact isDigitC_digitOfNat (Nat.mod_lt _ (by omega))

theorem natDecimal_ne_nil (n : ℕ) : natDecimal n ≠ [] := by
  by_cases h10 : n < 10
  · rw [natDecimal_lt_ten h10]
    simp
  · rw [natDecimal_ge_ten (by omega)]
    simp

/-! # Helper lemmas: comma grouping and rounding -/

theorem commaGroup_filter (l : List Char) :
    (commaGroup l).filter (fun x => x ≠ ',') = l.filter (fun x => x ≠ ',') := by
  match l with
  | [] => rfl
  | [a] => rfl
  | [a, b] => rfl
  | [a, b, c] => rfl
  | a :: b :: c :: d :: t =>
    have ih := commaGroup_filter (d :: t)
    show ((a :: b :: c :: ',' :: commaGroup (d :: t)).filter (fun x => x ≠ ',')) = _
    simp only [List.filter_cons, ih]
    norm_num

theorem mem_commaGroup {c : Char} {l : List Char} (h : c ∈ commaGroup l)
    (hc : c ≠ ',') : c ∈ l := by
  have h2 : c ∈ (commaGroup l).filter (fun x => x ≠ ',') :=
    List.mem_filter.mpr ⟨h, by simpa using hc⟩
  rw [commaGroup_filter] at h2
  exact List.mem_of_mem_filter h2

theorem filter_eq_self_of_all {p : Char → Bool} {l : List Char}
    (h : ∀ c ∈ l, p c = true) : l.filter p = l :=
  List.filter_eq_self.mpr h

theorem removeChar_commaFmtN (n : ℕ) : removeChar (commaFmtN n) ',' = natDecimal n := by
  unfold commaFmtN removeChar
  rw [List.filter_reverse, commaGroup_filter, List.filter_reverse, List.reverse_reverse]
  apply filter_eq_self_of_all
  intro c hc
  have hd := natDecimal_all_digits n c hc
  simpa using (digit_not_special hd).2.2.2.1

theorem mem_commaFmtN {c : Char} {n : ℕ} (h : c ∈ commaFmtN n) :
    isDigitC c = true ∨ c = ',' := by
  by_cases hc : c = ','
  · exact Or.inr hc
  · unfold commaFmtN at h
    rw [List.mem_reverse] at h
    have h2 := mem_commaGroup h hc
    rw [List.mem_reverse] at h2
    exact Or.inl (natDecimal_all_digits n c h2)

theorem roundHalfEven_intCast (z : ℤ) : roundHalfEven (z : ℚ) = z := by
  unfold roundHalfEven
  rw [Int.floor_intCast]
  norm_num

theorem roundHalfEven_natCast (n : ℕ) : roundHalfEven (n : ℚ) = n := by
  have := roundHalfEven_intCast (n : ℤ)
  rwa [Int.cast_natCast] at this

/-! # Helper lemmas: the full-precision format round trip -/

theorem format_full_nat (n : ℕ) (h : 0 < n) :
    format_currency_full (.num (n : ℚ)) = "$" ++ String.mk (commaFmtN n) := by
  show (if (n : ℚ) > 0 then "$" ++ fmtComma0f (n : ℚ) else "Undisclosed") = _
  rw [if_pos (by exact_mod_cast h)]
  unfold fmtComma0f
  rw [roundHalfEven_natCast]
  simp

theorem dollar_string_ne_undisclosed (l : List Char) :
    ("$" ++ String.mk l) ≠ "Undisclosed" := by
  intro h
  have h2 : ("$" ++ String.mk l).data = "Undisclosed".data := by rw [h]
  rw [String.data_append] at h2
  exact absurd (List.head_eq_of_cons_eq h2) (by decide)

theorem dollar_not_in_commaFmtN (n : ℕ) : '$' ∉ commaFmtN n := by
  intro h
  rcases mem_commaFmtN h with h2 | h2
  · exact absurd h2 (by decide)
  · exact absurd h2 (by decide)

theorem stripDollarComma_format (n : ℕ) :
    stripDollarComma ('$' :: commaFmtN n) = natDecimal n := by
  unfold stripDollarComma
  have h1 : removeChar ('$' :: commaFmtN n) '$' = commaFmtN n := by
    unfold removeChar
    rw [List.filter_cons]
    simp only [decide_eq_true_eq]
    rw [if_neg (by simp)]
    exact filter_eq_self_of_all (fun c hc => by
      rcases mem_commaFmtN hc with h2 | h2
      · simpa using (digit_not_special h2).2.2.2.2.1
      · subst h2; decide)
  rw [h1, removeChar_commaFmtN]

theorem parse_format_full_nat (n : ℕ) (h : 0 < n) :
    parse_to_numeric (.str (format_currency_full (.num (n : ℚ)))) = (n : ℚ) := by
  rw [format_full_nat n h]
  show (if "$" ++ String.mk (commaFmtN n) = "Undisclosed" then (0 : ℚ)
    else
      match parseFloatL (trimWs (stripDollarComma ("$" ++ String.mk (commaFmtN n)).data)) with
      | some v => v
      | none => 0) = (n : ℚ)
  rw [if_neg (dollar_string_ne_undisclosed _)]
  have hdata : ("$" ++ String.mk (commaFmtN n)).data = '$' :: commaFmtN n := by
    rw [String.data_append]
    rfl
  rw [hdata, stripDollarComma_format,
    trimWs_eq_self (fun c hc => (digit_not_special (natDecimal_all_digits n c hc)).2.2.2.2.2),
    parseFloatL_digits (natDecimal_ne_nil n) (natDecimal_all_digits n),
    natOfDigits_natDecimal]

/-! # Helper lemmas: grouping and aggregation -/

theorem mem_uniqueKeysAux {a : String} : ∀ (l seen : List String),
    a ∈ uniqueKeysAux l seen ↔ (a ∈ l ∧ a ∉ seen) := by
  intro l
  induction l with
  | nil => intro seen; simp [uniqueKeysAux]
  | cons c rest ih =>
    intro seen
    unfold uniqueKeysAux
    by_cases hc : c ∈ seen
    · rw [if_pos hc, ih]
      constructor
      · rintro ⟨h1, h2⟩
        exact ⟨by simp [h1], h2⟩
      · rintro ⟨h1, h2⟩
        rcases List.mem_cons.mp h1 with rfl | h1
        · exact absurd hc h2
        · exact ⟨h1, h2⟩
    · rw [if_neg hc]
      simp only [List.mem_cons, ih]
      constructor
      · rintro (rfl | ⟨h1, h2⟩)
        · exact ⟨Or.inl rfl, hc⟩
        · exact ⟨Or.inr h1, fun hs => h2 (by simp [hs])⟩
      · rintro ⟨rfl | h1, h2⟩
        · exact Or.inl rfl
        · by_cases hac : a = c
          · exact Or.inl hac
          · exact Or.inr ⟨h1, by simp [hac, h2]⟩

theorem mem_uniqueKeys {a : String} {l : List String} :
    a ∈ uniqueKeys l ↔ a ∈ l := by
  unfold uniqueKeys
  rw [mem_uniqueKeysAux]
  simp

theorem nodup_uniqueKeysAux : ∀ (l seen : List String), (uniqueKeysAux l seen).Nodup := by
  intro l
  induction l with
  | nil => intro seen; simp [uniqueKeysAux]
  | cons c rest ih =>
    intro seen
    unfold uniqueKeysAux
    by_cases hc : c ∈ seen
    · rw [if_pos hc]
      exact ih seen
    · rw [if_neg hc]
      refine List.Nodup.cons ?_ (ih (c :: seen))
      intro hmem
      exact ((mem_uniqueKeysAux rest (c :: seen)).mp hmem).2 (by simp)

theorem nodup_uniqueKeys (l : List String) : (uniqueKeys l).Nodup :=
  nodup_uniqueKeysAux l []

theorem sum_counts (keys : List String) : ∀ l : List DealRecord, keys.Nodup →
    (∀ r ∈ l, r.quarter ∈ keys) →
    ((keys.map (fun q => (l.filter (fun r => r.quarter = q)).length)).sum) = l.length := by
  induction keys with
  | nil =>
    intro l _ hcov
    cases l with
    | nil => rfl
    | cons r t => exact absurd (hcov r (by simp)) (by simp)
  | cons k ks ih =>
    intro l hnd hcov
    have hknotin : k ∉ ks := (List.nodup_cons.mp hnd).1
    have hfil : ∀ q ∈ ks,
        l.filter (fun r => decide (r.quarter = q)) =
        (l.filter (fun r => !(decide (r.quarter = k)))).filter (fun r => decide (r.quarter = q)) := by
      intro q hq
      rw [List.filter_filter]
      apply (List.filter_congr ?_).symm
      intro r _
      have hqk : ¬ q = k := fun h => hknotin (h ▸ hq)
      by_cases hrq : r.quarter = q
      · simp [hrq, hqk]
      · simp [hrq]
    have hmap : (ks.map (fun q => (l.filter (fun r => r.quarter = q)).length)).sum =
        (ks.map (fun q =>
          ((l.filter (fun r => !(decide (r.quarter = k)))).filter
            (fun r => r.quarter = q)).length)).sum := by
      congr 1
      apply List.map_congr_left
      intro q hq
      rw [hfil q hq]
    rw [List.map_cons, List.sum_cons, hmap,
      ih (l.filter (fun r => !(decide (r.quarter = k)))) (List.nodup_cons.mp hnd).2 ?_]
    · exact (List.length_eq_length_filter_add (l := l)
        (fun r : DealRecord => decide (r.quarter = k))).symm
    · intro r hr
      have h1 := List.mem_of_mem_filter hr
      have h2 := (List.mem_filter.mp hr).2
      rcases List.mem_cons.mp (hcov r h1) with heq | hmem
      · simp [heq] at h2
      · exact hmem

theorem chartCell_some {a : Amt} {v : ℚ} (h : chartCell a = some v) :
    normContrib a = v ∧ (chartNorm a).isSome := by
  cases a with
  | num q =>
    simp only [chartCell] at h
    injection h with h
    subst h
    exact ⟨rfl, rfl⟩
  | str s =>
    by_cases hs : s = "Undisclosed"
    · simp only [chartCell, if_pos hs] at h
      injection h with h
      simp [normContrib, chartNorm, if_pos hs, ← h]
    · simp only [chartCell, if_neg hs] at h
      rcases hp : parseFloatL (stripDollarBMComma s.data) with _ | v2
      · rw [hp] at h
        cases h
      · rw [hp] at h
        injection h with h
        subst h
        simp [normContrib, chartNorm, if_neg hs, hp]

theorem chartCell_isSome_of_chartNorm {a : Amt} (h : (chartNorm a).isSome) :
    (chartCell a).isSome := by
  cases a with
  | num q => rfl
  | str s =>
    by_cases hs : s = "Undisclosed"
    · simp [chartCell, if_pos hs]
    · simp only [chartNorm, if_neg hs] at h
      simp only [chartCell, if_neg hs]
      rcases hp : parseFloatL (stripDollarBMComma s.data) with _ | v2
      · rw [hp] at h
        simp at h
      · simp

theorem sumCells_eq : ∀ l : List Amt, (sumCells l).isSome →
    sumCells l = some ((l.map normContrib).sum) ∧ ∀ a ∈ l, (chartNorm a).isSome := by
  intro l
  induction l with
  | nil =>
    intro _
    constructor
    · simp [sumCells]
    · simp
  | cons a rest ih =>
    intro h
    unfold sumCells at h ⊢
    rcases hc : chartCell a with _ | v
    · rw [hc] at h
      simp at h
    · rcases hr : sumCells rest with _ | s
      · rw [hc, hr] at h
        simp at h
      · have ihr := ih (by rw [hr]; rfl)
        rw [hr] at ihr
        have hcs := chartCell_some hc
        constructor
        · have hs : s = (rest.map normContrib).sum := Option.some.inj ihr.1
          show some (v + s) = some ((a :: rest).map normContrib).sum
          simp [hcs.1, hs]
        · intro x hx
          rcases List.mem_cons.mp hx with rfl | hx
          · exact hcs.2
          · exact ihr.2 x hx

theorem createQuarterlyData_spec {R : List DealRecord} {rows : List (String × ℚ × ℕ)}
    (h : createQuarterlyData R = some rows) :
    rows = (aggRows R).map (fun g => (g.1, g.2.1.getD 0, g.2.2)) ∧
      ∀ g ∈ aggRows R, g.2.1.isSome := by
  unfold createQuarterlyData at h
  by_cases hemp : (R.filter (fun r => r.quarter ≠ "Undisclosed")).isEmpty
  · rw [if_pos hemp] at h
    cases h
  · rw [if_neg hemp] at h
    by_cases hall : (aggRows R).all (fun g => g.2.1.isSome)
    · rw [if_pos hall] at h
      refine ⟨(Option.some.inj h).symm, ?_⟩
      simpa [List.all_eq_true] using hall
    · rw [if_neg hall] at h
      cases h

/-! # Evaluation lemmas for concrete cells -/

theorem chartCell_500M : chartCell (.str "$500M") = some 500 := by
  have h : parseFloatRep (stripDollarBMComma "$500M".data) = some (500, 0) := by decide
  show (if "$500M" = "Undisclosed" then some 0
    else parseFloatL (stripDollarBMComma "$500M".data)) = some 500
  rw [if_neg (by decide)]
  unfold parseFloatL
  rw [h]
  norm_num [repToRat]

theorem chartCell_21B : chartCell (.str "$2.1B") = some (21/10) := by
  have h : parseFloatRep (stripDollarBMComma "$2.1B".data) = some (21, -1) := by decide
  show (if "$2.1B" = "Undisclosed" then some 0
    else parseFloatL (stripDollarBMComma "$2.1B".data)) = some (21/10)
  rw [if_neg (by decide)]
  unfold parseFloatL
  rw [h]
  norm_num [repToRat]

theorem chartCell_12B : chartCell (.str "$1.2B") = some (6/5) := by
  have h : parseFloatRep (stripDollarBMComma "$1.2B".data) = some (12, -1) := by decide
  show (if "$1.2B" = "Undisclosed" then some 0
    else parseFloatL (stripDollarBMComma "$1.2B".data)) = some (6/5)
  rw [if_neg (by decide)]
  unfold parseFloatL
  rw [h]
  norm_num [repToRat]

theorem chartCell_350M : chartCell (.str "350M") = some 350 := by
  have h : parseFloatRep (stripDollarBMComma "350M".data) = some (350, 0) := by decide
  show (if "350M" = "Undisclosed" then some 0
    else parseFloatL (stripDollarBMComma "350M".data)) = some 350
  rw [if_neg (by decide)]
  unfold parseFloatL
  rw [h]
  norm_num [repToRat]

theorem chartCell_undisclosed_cell : chartCell (.str "Undisclosed") = some 0 := rfl

theorem pvfs_12B : parse_value_for_sorting (.str "$1.2B") = 6/5 := by
  have h : parseFloatRep (trimWs (stripDollarBMComma "$1.2B".data)) = some (12, -1) := by decide
  show (if "$1.2B" = "Undisclosed" then (0 : ℚ)
    else
      match parseFloatL (trimWs (stripDollarBMComma "$1.2B".data)) with
      | some v => v
      | none => 0) = 6/5
  rw [if_neg (by decide)]
  unfold parseFloatL
  rw [h]
  show repToRat (12, -1) = 6/5
  norm_num [repToRat]

theorem pvfs_350M : parse_value_for_sorting (.str "350M") = 350 := by
  have h : parseFloatRep (trimWs (stripDollarBMComma "350M".data)) = some (350, 0) := by decide
  show (if "350M" = "Undisclosed" then (0 : ℚ)
    else
      match parseFloatL (trimWs (stripDollarBMComma "350M".data)) with
      | some v => v
      | none => 0) = 350
  rw [if_neg (by decide)]
  unfold parseFloatL
  rw [h]
  show repToRat (350, 0) = 350
  norm_num [repToRat]

theorem sumCells_scenario :
    sumCells [Amt.str "$500M", Amt.str "Undisclosed", Amt.str "$2.1B"] = some (5021/10) := by
  simp only [sumCells, chartCell_500M, chartCell_undisclosed_cell, chartCell_21B]
  norm_num

theorem aggRows_scenario :
    aggRows [⟨"A", "Q1 2025", .str "$500M"⟩, ⟨"B", "Q1 2025", .str "Undisclosed"⟩,
      ⟨"C", "Q1 2025", .str "$2.1B"⟩] =
    [("Q1 2025", some ((5021 : ℚ)/10), 3)] := by
  show [("Q1 2025", sumCells [Amt.str "$500M", Amt.str "Undisclosed", Amt.str "$2.1B"], 3)] = _
  rw [sumCells_scenario]

theorem createQuarterlyData_scenario :
    createQuarterlyData [⟨"A", "Q1 2025", .str "$500M"⟩, ⟨"B", "Q1 2025", .str "Undisclosed"⟩,
      ⟨"C", "Q1 2025", .str "$2.1B"⟩] =
    some [("Q1 2025", (5021 : ℚ)/10, 3)] := by
  unfold createQuarterlyData
  rw [if_neg (by decide), aggRows_scenario]
  simp

/-! # Claims -/

/-- Claim C1, counterexample: the chart value lambda of
`create_quarterly_chart` (src/app.py:531-533) parses `"$1.2B"` to `1.2`
(the suffix `B` is stripped, not applied as a factor of `1e9`), so
normalization does not scale by the magnitude suffix as the claim
states. -/
theorem C1_counterexample :
    chartCell (.str "$1.2B") = some (6/5) ∧ ((6 : ℚ)/5 ≠ 1200000000) := by
  refine ⟨chartCell_12B, by norm_num⟩

/-- Claim C1, amended: the normalizers of src/app.py:531-533 and
src/app.py:1935-1943 delete the characters `B` and `M` without applying
any scale factor, so `"$1.2B"` parses to `1.2` and `"350M"` to `350`;
consequently the record sequence `[{amount:"$500M"}, {amount:"Undisclosed"},
{amount:"$2.1B"}]` (all in quarter `Q1 2025`) aggregates to one group with
total `502.1` and count `3`. -/
theorem C1_amended :
    chartCell (.str "$1.2B") = some (6/5) ∧
    chartCell (.str "350M") = some 350 ∧
    parse_value_for_sorting (.str "$1.2B") = 6/5 ∧
    parse_value_for_sorting (.str "350M") = 350 ∧
    createQuarterlyData [⟨"A", "Q1 2025", .str "$500M"⟩, ⟨"B", "Q1 2025", .str "Undisclosed"⟩,
      ⟨"C", "Q1 2025", .str "$2.1B"⟩] =
      some [("Q1 2025", (5021 : ℚ)/10, 3)] :=
  ⟨chartCell_12B, chartCell_350M, pvfs_12B, pvfs_350M, createQuarterlyData_scenario⟩

/-- Claim C2, counterexample: `parse_to_numeric` (src/app.py:948-955) maps
the unparseable string `"garbage"` to the plain number `0`, the same value
it gives a genuinely zero amount, so normalization returns the real value
zero rather than a distinguished Undisclosed marker. -/
theorem C2_counterexample :
    parse_to_numeric (.str "garbage") = 0 ∧ parse_to_numeric (.num 0) = 0 := by
  constructor
  · have h : parseFloatRep (trimWs (stripDollarComma "garbage".data)) = none := by decide
    show (if "garbage" = "Undisclosed" then (0 : ℚ)
      else
        match parseFloatL (trimWs (stripDollarComma "garbage".data)) with
        | some v => v
        | none => 0) = 0
    rw [if_neg (by decide)]
    unfold parseFloatL
    rw [h]
    rfl
  · rfl

/-- Claim C2, amended: every string that fails to parse (after stripping
`$` and `,` and trimming) is mapped by `parse_to_numeric`
(src/app.py:948-955) and by the `parse_value` of `calc_quarterly_stats`
(src/app.py:1232-1239) to the numeric sentinel `0` — the same value as a
disclosed zero, not a distinct marker — and no exception escapes (both
functions are total). -/
theorem C2_amended (s : String) (hs : s ≠ "Undisclosed")
    (hp : parseFloatL (trimWs (stripDollarComma s.data)) = none) :
    parse_to_numeric (.str s) = 0 ∧ calc_parse_value (.str s) = 0 := by
  constructor
  · show (if s = "Undisclosed" then (0 : ℚ)
      else
        match parseFloatL (trimWs (stripDollarComma s.data)) with
        | some v => v
        | none => 0) = 0
    rw [if_neg hs, hp]
  · show (if s = "Undisclosed" then (0 : ℚ)
      else if s = "" then 0
      else
        match parseFloatL (trimWs (stripDollarComma s.data)) with
        | some v => v
        | none => 0) = 0
    rw [if_neg hs]
    by_cases he : s = ""
    · rw [if_pos he]
    · rw [if_neg he, hp]

/-- Claim C2, witness: the amended statement at the concrete unparseable
input `"garbage"`. -/
theorem C2_witness :
    parse_to_numeric (.str "garbage") = 0 ∧ calc_parse_value (.str "garbage") = 0 :=
  C2_amended "garbage" (by decide) (by decide)

/-- Claim C9, counterexample: on the empty record sequence the data
preparation of `create_quarterly_chart` (src/app.py:524-528) warns and
returns `None`, not an empty result sequence. -/
theorem C9_counterexample :
    createQuarterlyData ([] : List DealRecord) ≠ some [] := by
  decide

/-- Claim C9, amended: on the empty record sequence the aggregation
returns `None` (after the warning at src/app.py:527), raising no
exception; it does not produce an empty result list. -/
theorem C9_amended : createQuarterlyData ([] : List DealRecord) = none := rfl

/-- Claim C10: a disclosed amount of exactly zero formats to the literal
string `"Undisclosed"` in both the full style (src/app.py:397-408) and the
abbreviated style (src/app.py:361-376), identical to the formatting of the
Undisclosed marker itself, so a zero-valued deal is indistinguishable from
an unknown amount in formatted output. -/
theorem C10_zero_formats_undisclosed :
    format_currency_full (.num 0) = "Undisclosed" ∧
    format_currency_abbreviated (.num 0) = "Undisclosed" ∧
    format_currency_full (.str "Undisclosed") = "Undisclosed" ∧
    format_currency_abbreviated (.str "Undisclosed") = "Undisclosed" ∧
    format_currency_full .null = "Undisclosed" ∧
    format_currency_abbreviated .null = "Undisclosed" := by
  refine ⟨?_, ?_, by rfl, by rfl, by rfl, by rfl⟩
  · show (if (0 : ℚ) > 0 then "$" ++ fmtComma0f 0 else "Undisclosed") = "Undisclosed"
    rw [if_neg (by norm_num)]
  · show fmtAbbrev 0 = "Undisclosed"
    unfold fmtAbbrev
    rw [if_neg (by norm_num), if_neg (by norm_num), if_neg (by norm_num)]

/-! # Groups: supporting lemmas for claims C3 and C6 -/

theorem filtered_filter_eq_groupOf {R : List DealRecord} {q : String} (hq : q ≠ "Undisclosed") :
    (R.filter (fun r => r.quarter ≠ "Undisclosed")).filter (fun r => r.quarter = q) =
      groupOf R q := by
  rw [List.filter_filter]
  unfold groupOf
  apply List.filter_congr
  intro r _
  by_cases hrq : r.quarter = q
  · simp [hrq, hq]
  · simp [hrq]

theorem key_ne_undisclosed {R : List DealRecord} {q : String}
    (hq : q ∈ uniqueKeys ((R.filter (fun r => r.quarter ≠ "Undisclosed")).map
      (fun r => r.quarter))) : q ≠ "Undisclosed" := by
  rw [mem_uniqueKeys] at hq
  rcases List.mem_map.mp hq with ⟨r, hr, rfl⟩
  have h2 := (List.mem_filter.mp hr).2
  simpa using h2

theorem nodup_filter_eq_len {l : List String} (hnd : l.Nodup) {a : String} (ha : a ∈ l) :
    (l.filter (fun q => q = a)).length = 1 := by
  induction l with
  | nil => cases ha
  | cons k ks ih =>
    have hknotin : k ∉ ks := (List.nodup_cons.mp hnd).1
    rcases List.mem_cons.mp ha with rfl | ha2
    · have hnil : ks.filter (fun q => q = a) = [] := by
        rw [List.filter_eq_nil_iff]
        intro q hq
        simp only [decide_eq_true_eq]
        rintro rfl
        exact hknotin hq
      rw [List.filter_cons]
      simp [hnil]
    · have hka : k ≠ a := by
        rintro rfl
        exact hknotin ha2
      rw [List.filter_cons]
      simp only [decide_eq_true_eq]
      rw [if_neg hka]
      exact ih (List.nodup_cons.mp hnd).2 ha2

/-- Claim C3: for every group produced by the quarterly aggregation
(src/app.py:531-536), every amount of the group normalizes (to a disclosed
value or the Undisclosed marker), the reported total is the sum of the
disclosed normalized amounts with every Undisclosed amount contributing
exactly zero, and the reported count is the number of records of the
group regardless of disclosure. -/
theorem C3_group_totals {R : List DealRecord} {rows : List (String × ℚ × ℕ)}
    (h : createQuarterlyData R = some rows) :
    ∀ g ∈ rows,
      (∀ r ∈ groupOf R g.1, (chartNorm r.amount).isSome) ∧
      g.2.1 = ((groupOf R g.1).map (fun r => normContrib r.amount)).sum ∧
      g.2.2 = (groupOf R g.1).length := by
  obtain ⟨hrows, hall⟩ := createQuarterlyData_spec h
  subst hrows
  intro g hg
  rcases List.mem_map.mp hg with ⟨g0, hg0, rfl⟩
  have hall0 := hall g0 hg0
  rcases List.mem_map.mp hg0 with ⟨q, hq, rfl⟩
  have hqne := key_ne_undisclosed hq
  have hgrp := filtered_filter_eq_groupOf (R := R) hqne
  dsimp only at hall0 ⊢
  rw [hgrp] at hall0 ⊢
  have hsum := sumCells_eq _ hall0
  refine ⟨?_, ?_, rfl⟩
  · intro r hr
    exact hsum.2 r.amount (List.mem_map_of_mem _ hr)
  · rw [hsum.1]
    show (((groupOf R q).map (fun r => r.amount)).map normContrib).sum =
      ((groupOf R q).map (fun r => normContrib r.amount)).sum
    rw [List.map_map]
    rfl

theorem createQuarterlyData_single :
    createQuarterlyData [⟨"A", "Q1 2025", Amt.str "$500M"⟩] =
      some [("Q1 2025", (500 : ℚ), 1)] := by
  have hsum : sumCells [Amt.str "$500M"] = some (500 : ℚ) := by
    simp only [sumCells, chartCell_500M]
    norm_num
  have hagg : aggRows [⟨"A", "Q1 2025", Amt.str "$500M"⟩] =
      [("Q1 2025", some (500 : ℚ), 1)] := by
    show [("Q1 2025", sumCells [Amt.str "$500M"], 1)] = _
    rw [hsum]
  unfold createQuarterlyData
  rw [if_neg (by decide), hagg]
  simp

/-- Claim C3, witness: the group property at the one-record sequence with
amount `"$500M"` in quarter `Q1 2025`. -/
theorem C3_witness :
    (∀ r ∈ groupOf [⟨"A", "Q1 2025", Amt.str "$500M"⟩] "Q1 2025",
      (chartNorm r.amount).isSome) ∧
    (500 : ℚ) = ((groupOf [⟨"A", "Q1 2025", Amt.str "$500M"⟩] "Q1 2025").map
      (fun r => normContrib r.amount)).sum ∧
    1 = (groupOf [⟨"A", "Q1 2025", Amt.str "$500M"⟩] "Q1 2025").length :=
  C3_group_totals createQuarterlyData_single ("Q1 2025", (500 : ℚ), 1) (by simp)

/-- Claim C6, counterexample: a record whose Quarter is `"Undisclosed"` is
dropped before grouping (src/app.py:524), so the groups do not partition
the input: with one kept and one dropped record the per-group counts sum
to `1` while the input has length `2`. -/
theorem C6_counterexample :
    createQuarterlyData [⟨"A", "Q1 2025", Amt.str "$500M"⟩,
        ⟨"B", "Undisclosed", Amt.str "$500M"⟩] =
      some [("Q1 2025", (500 : ℚ), 1)] ∧
    (([("Q1 2025", (500 : ℚ), 1)]).map (fun g => g.2.2)).sum = 1 ∧
    ([⟨"A", "Q1 2025", Amt.str "$500M"⟩, ⟨"B", "Undisclosed", Amt.str "$500M"⟩] :
      List DealRecord).length = 2 := by
  refine ⟨?_, rfl, rfl⟩
  have hsum : sumCells [Amt.str "$500M"] = some (500 : ℚ) := by
    simp only [sumCells, chartCell_500M]
    norm_num
  have hagg : aggRows [⟨"A", "Q1 2025", Amt.str "$500M"⟩,
      ⟨"B", "Undisclosed", Amt.str "$500M"⟩] = [("Q1 2025", some (500 : ℚ), 1)] := by
    show [("Q1 2025", sumCells [Amt.str "$500M"], 1)] = _
    rw [hsum]
  unfold createQuarterlyData
  rw [if_neg (by decide), hagg]
  simp

/-- Claim C6, amended: the groups produced by the quarterly aggregation
partition the records whose Quarter is not `"Undisclosed"`: group keys are
distinct, every such record falls in exactly one group, and the per-group
counts sum to the number of such records.  Records with Quarter
`"Undisclosed"` are dropped (src/app.py:524) and belong to no group. -/
theorem C6_amended {R : List DealRecord} {rows : List (String × ℚ × ℕ)}
    (h : createQuarterlyData R = some rows) :
    (rows.map (fun g => g.1)).Nodup ∧
    (∀ r ∈ R, r.quarter ≠ "Undisclosed" →
      (rows.filter (fun g => g.1 = r.quarter)).length = 1) ∧
    (rows.map (fun g => g.2.2)).sum =
      (R.filter (fun r => r.quarter ≠ "Undisclosed")).length := by
  obtain ⟨hrows, _⟩ := createQuarterlyData_spec h
  subst hrows
  have hkeys : (((uniqueKeys ((R.filter (fun r => r.quarter ≠ "Undisclosed")).map
      (fun r => r.quarter))).map (fun q =>
        (q,
          sumCells (((R.filter (fun r => r.quarter ≠ "Undisclosed")).filter
            (fun r => r.quarter = q)).map (fun r => r.amount)),
          ((R.filter (fun r => r.quarter ≠ "Undisclosed")).filter
            (fun r => r.quarter = q)).length))).map
        (fun g => (g.1, g.2.1.getD 0, g.2.2))).map (fun g => g.1) =
      uniqueKeys ((R.filter (fun r => r.quarter ≠ "Undisclosed")).map (fun r => r.quarter)) := by
    rw [List.map_map, List.map_map]
    exact List.map_id _
  refine ⟨?_, ?_, ?_⟩
  · show ((aggRows R).map (fun g => (g.1, g.2.1.getD 0, g.2.2))).map (fun g => g.1) |>.Nodup
    unfold aggRows
    rw [hkeys]
    exact nodup_uniqueKeys _
  · intro r hr hne
    show (((aggRows R).map (fun g => (g.1, g.2.1.getD 0, g.2.2))).filter
      (fun g => g.1 = r.quarter)).length = 1
    unfold aggRows
    rw [List.filter_map, List.filter_map, List.length_map, List.length_map]
    apply nodup_filter_eq_len (nodup_uniqueKeys _)
    rw [mem_uniqueKeys]
    exact List.mem_map_of_mem _ (List.mem_filter.mpr ⟨hr, by simpa using hne⟩)
  · show (((aggRows R).map (fun g => (g.1, g.2.1.getD 0, g.2.2))).map
      (fun g => g.2.2)).sum = _
    unfold aggRows
    rw [List.map_map, List.map_map]
    exact sum_counts _ _ (nodup_uniqueKeys _) (fun r hr => by
      rw [mem_uniqueKeys]
      exact List.mem_map_of_mem _ hr)

/-- Claim C6, witness: the amended partition property at a two-record
input with distinct quarters. -/
theorem C6_witness :
    (([("Q1 2025", (500 : ℚ), 1)]).map (fun g => g.1)).Nodup ∧
    (∀ r ∈ ([⟨"A", "Q1 2025", Amt.str "$500M"⟩] : List DealRecord),
      r.quarter ≠ "Undisclosed" →
      (([("Q1 2025", (500 : ℚ), 1)]).filter (fun g => g.1 = r.quarter)).length = 1) ∧
    (([("Q1 2025", (500 : ℚ), 1)]).map (fun g => g.2.2)).sum =
      (([⟨"A", "Q1 2025", Amt.str "$500M"⟩] : List DealRecord).filter
        (fun r => r.quarter ≠ "Undisclosed")).length :=
  C6_amended createQuarterlyData_single

/-- Claim C4, counterexample: `sort_key` (src/app.py:540-551) maps
`"17 2024"` — a string with no extractable quarter pattern — to the
ordinary key `(2024, 17)` rather than the fallback key, and the fallback
key `(9999, 99)` does not sort last: `"Q1 10000"` yields `(10000, 1)`,
which sorts strictly after it. -/
theorem C4_counterexample :
    sort_key "17 2024" = (2024, 17) ∧ sort_key "17 2024" ≠ (9999, 99) ∧
    sort_key "Q1 10000" = (10000, 1) ∧ keyLt (9999, 99) (10000, 1) := by
  refine ⟨by decide, by decide, by decide, ?_⟩
  exact Or.inl (by decide)

/-- Claim C4, amended: quarter keys compare chronologically by
`(year, quarter_number)` — in particular `Q4 2024` sorts before
`Q1 2025` — the key order is a total strict order, strings that do not
split into two integer tokens (after deleting `Q` characters from the
first) map to the fallback key `(9999, 99)`, and that fallback sorts after
every key with year below `9999` (hence after every genuine 4-digit-year
quarter), though not after every producible key. -/
theorem C4_amended :
    (sort_key "Q4 2024" = (2024, 4) ∧ sort_key "Q1 2025" = (2025, 1) ∧
      keyLt (sort_key "Q4 2024") (sort_key "Q1 2025")) ∧
    (∀ a b : ℤ × ℤ, keyLt a b ∨ a = b ∨ keyLt b a) ∧
    (∀ a b c : ℤ × ℤ, keyLt a b → keyLt b c → keyLt a c) ∧
    (∀ s : String, (pySplitWs s.data).length ≠ 2 → sort_key s = (9999, 99)) ∧
    (∀ s : String, ∀ p0 p1, pySplitWs s.data = [p0, p1] →
      (pyIntL (removeChar p0 'Q') = none ∨ pyIntL p1 = none) →
      sort_key s = (9999, 99)) ∧
    (∀ s : String, ∀ y q : ℤ, sort_key s = (y, q) → y < 9999 →
      keyLt (y, q) (9999, 99)) := by
  refine ⟨⟨by decide, by decide, Or.inl (by decide)⟩, ?_, ?_, ?_, ?_, ?_⟩
  · intro a b
    by_cases h1 : a.1 < b.1
    · exact Or.inl (Or.inl h1)
    by_cases h2 : b.1 < a.1
    · exact Or.inr (Or.inr (Or.inl h2))
    have he : a.1 = b.1 := le_antisymm (not_lt.mp h2) (not_lt.mp h1)
    by_cases h3 : a.2 < b.2
    · exact Or.inl (Or.inr ⟨he, h3⟩)
    by_cases h4 : b.2 < a.2
    · exact Or.inr (Or.inr (Or.inr ⟨he.symm, h4⟩))
    · have he2 : a.2 = b.2 := le_antisymm (not_lt.mp h4) (not_lt.mp h3)
      exact Or.inr (Or.inl (Prod.ext he he2))
  · intro a b c hab hbc
    unfold keyLt at hab hbc ⊢
    omega
  · intro s h
    rcases hsp : pySplitWs s.data with _ | ⟨p0, _ | ⟨p1, _ | ⟨p2, t3⟩⟩⟩
    · unfold sort_key
      rw [hsp]
    · unfold sort_key
      rw [hsp]
    · rw [hsp] at h
      exact absurd rfl h
    · unfold sort_key
      rw [hsp]
  · intro s p0 p1 hsp hnone
    unfold sort_key
    rw [hsp]
    show (match pyIntL (removeChar p0 'Q'), pyIntL p1 with
      | some qn, some y => ((y, qn) : ℤ × ℤ)
      | _, _ => (9999, 99)) = (9999, 99)
    rcases hq : pyIntL (removeChar p0 'Q') with _ | qn <;>
      rcases hy : pyIntL p1 with _ | y
    · rfl
    · rfl
    · rfl
    · rw [hq, hy] at hnone
      rcases hnone with h | h <;> cases h
  · intro s y q _ hy
    exact Or.inl hy

/-- Claim C4, witness: the amended statement at a malformed quarter string
and at the year-boundary pair. -/
theorem C4_witness :
    sort_key "garbage" = (9999, 99) ∧ keyLt (sort_key "Q4 2024") (sort_key "Q1 2025") :=
  ⟨C4_amended.2.2.2.1 "garbage" (by decide), C4_amended.1.2.2⟩

/-! # Helper lemmas for claim C8 -/

theorem space_not_digit {c : Char} (h : isSpaceC c = true) : isDigitC c = false := by
  simp only [isSpaceC, Bool.or_eq_true, beq_iff_eq] at h
  rcases h with ((((rfl | rfl) | rfl) | rfl) | rfl) | rfl <;> decide

theorem digit_asciiLower {c : Char} (h : isDigitC c = true) : asciiLower c = c := by
  rcases (isDigitC_iff c).mp h with rfl | rfl | rfl | rfl | rfl | rfl | rfl | rfl | rfl | rfl <;>
    decide

theorem target_no_digit : ∀ c ∈ "undisclosed".data, isDigitC c = false := by decide

theorem trimWs_decomp (l : List Char) : ∃ pre post,
    l = pre ++ trimWs l ++ post ∧ (∀ c ∈ pre, isSpaceC c = true) ∧
    (∀ c ∈ post, isSpaceC c = true) := by
  refine ⟨l.takeWhile isSpaceC,
    ((l.dropWhile isSpaceC).reverse.takeWhile isSpaceC).reverse, ?_, ?_, ?_⟩
  · have h1 : l = l.takeWhile isSpaceC ++ l.dropWhile isSpaceC :=
      (List.takeWhile_append_dropWhile isSpaceC l).symm
    have h2 : (l.dropWhile isSpaceC).reverse =
        (l.dropWhile isSpaceC).reverse.takeWhile isSpaceC ++
        (l.dropWhile isSpaceC).reverse.dropWhile isSpaceC :=
      (List.takeWhile_append_dropWhile isSpaceC (l.dropWhile isSpaceC).reverse).symm
    have h3 : l.dropWhile isSpaceC =
        trimWs l ++ ((l.dropWhile isSpaceC).reverse.takeWhile isSpaceC).reverse := by
      have h4 := congrArg List.reverse h2
      rw [List.reverse_reverse, List.reverse_append] at h4
      exact h4
    rw [List.append_assoc, ← h3]
    exact h1
  · intro c hc
    exact List.mem_takeWhile_imp hc
  · intro c hc
    rw [List.mem_reverse] at hc
    exact List.mem_takeWhile_imp hc

/-- Claim C8: every cell that is missing, or whose trimmed
case-insensitive text equals `"undisclosed"`, is normalized to the
sentinel value by the top-deals parser (src/app.py:1036-1043, sentinel
`-1`) and by the sunburst parser (src/app.py:782-789, sentinel `0`): the
literal string takes the explicit branch, every other case variant fails
the float parse and lands on the same sentinel. -/
theorem C8_undisclosed_normalizes (s : String)
    (h : (trimWs s.data).map asciiLower = "undisclosed".data) :
    parse_to_numeric_sort (.str s) = -1 ∧ sun_parse_value (.str s) = 0 ∧
    parse_to_numeric_sort .null = -1 ∧ sun_parse_value .null = 0 := by
  have hnodig : ∀ c ∈ s.data, isDigitC c = false := by
    intro c hc
    obtain ⟨pre, post, hdec, hpre, hpost⟩ := trimWs_decomp s.data
    rw [hdec] at hc
    rcases List.mem_append.mp hc with hc2 | hc2
    · rcases List.mem_append.mp hc2 with hc3 | hc3
      · exact space_not_digit (hpre c hc3)
      · by_cases hd : isDigitC c
        · have hmem : asciiLower c ∈ "undisclosed".data := by
            rw [← h]
            exact List.mem_map_of_mem _ hc3
          rw [digit_asciiLower hd] at hmem
          exact absurd hd (by simp [target_no_digit c hmem])
        · simpa using hd
    · exact space_not_digit (hpost c hc2)
  refine ⟨?_, ?_, rfl, rfl⟩
  · by_cases hs : s = "Undisclosed"
    · subst hs
      rfl
    · show (if s = "Undisclosed" then (-1 : ℚ)
        else
          match parseFloatL (trimWs (stripDollarComma s.data)) with
          | some v => v
          | none => -1) = -1
      have hn : parseFloatL (trimWs (stripDollarComma s.data)) = none :=
        parseFloatL_none_of_no_digit (fun c hc =>
          hnodig c (mem_of_mem_removeChar (mem_of_mem_removeChar (mem_of_mem_trimWs hc))))
      rw [if_neg hs, hn]
  · by_cases hs : s = "Undisclosed"
    · subst hs
      rfl
    · show (if s = "Undisclosed" then (0 : ℚ)
        else
          match parseFloatL (trimWs (stripDollarBMComma s.data)) with
          | some v => v
          | none => 0) = 0
      have hn : parseFloatL (trimWs (stripDollarBMComma s.data)) = none :=
        parseFloatL_none_of_no_digit (fun c hc =>
          hnodig c (mem_of_mem_removeChar (mem_of_mem_removeChar (mem_of_mem_removeChar
            (mem_of_mem_removeChar (mem_of_mem_trimWs hc))))))
      rw [if_neg hs, hn]

/-- Claim C8, witness: the trimmed upper-case variant `" UNDISCLOSED "`
and the missing cell both normalize to the sentinels. -/
theorem C8_witness :
    parse_to_numeric_sort (.str " UNDISCLOSED ") = -1 ∧
    sun_parse_value (.str " UNDISCLOSED ") = 0 ∧
    parse_to_numeric_sort .null = -1 ∧ sun_parse_value .null = 0 :=
  C8_undisclosed_normalizes " UNDISCLOSED " (by decide)

/-- Claim C7, counterexample: the full-precision formatter rounds to whole
dollars (`{:,.0f}`, src/app.py:404), so `Disclosed(1.5)` formats to `"$2"`
and normalizes back to `Disclosed(2)`, not `Disclosed(1.5)`. -/
theorem C7_counterexample :
    format_currency_full (.num ((3 : ℚ)/2)) = "$2" ∧
    parse_to_numeric (.str (format_currency_full (.num ((3 : ℚ)/2)))) = 2 ∧
    ((2 : ℚ) ≠ 3/2) := by
  have hfloor : ⌊(3 : ℚ)/2⌋ = 1 := by
    rw [Int.floor_eq_iff]
    norm_num
  have hr : roundHalfEven ((3 : ℚ)/2) = 2 := by
    unfold roundHalfEven
    rw [hfloor]
    rw [if_neg (by norm_num), if_neg (by norm_num), if_neg (by decide)]
    norm_num
  have hfmt : format_currency_full (.num ((3 : ℚ)/2)) = "$2" := by
    show (if (3 : ℚ)/2 > 0 then "$" ++ fmtComma0f ((3 : ℚ)/2) else "Undisclosed") = "$2"
    rw [if_pos (by norm_num)]
    unfold fmtComma0f
    rw [hr]
    decide
  refine ⟨hfmt, ?_, by norm_num⟩
  rw [hfmt]
  have hp : parseFloatRep (trimWs (stripDollarComma "$2".data)) = some (2, 0) := by decide
  show (if "$2" = "Undisclosed" then (0 : ℚ)
    else
      match parseFloatL (trimWs (stripDollarComma "$2".data)) with
      | some v => v
      | none => 0) = 2
  rw [if_neg (by decide)]
  unfold parseFloatL
  rw [hp]
  show repToRat (2, 0) = 2
  norm_num [repToRat]

/-- Claim C7, amended: the round trip holds on positive whole-dollar
amounts: for every natural `n > 0`, formatting `Disclosed(n)` with the
full style and normalizing the result returns `Disclosed(n)`.  (At zero
the formatter emits `"Undisclosed"`, and fractional amounts are rounded
by the formatter, as the counterexample shows.) -/
theorem C7_amended (n : ℕ) (h : 0 < n) :
    parse_to_numeric (.str (format_currency_full (.num (n : ℚ)))) = (n : ℚ) :=
  parse_format_full_nat n h

/-- Claim C7, witness: the round trip at the seven-digit amount
`1234567`, whose formatted form carries two thousands separators. -/
theorem C7_witness :
    parse_to_numeric (.str (format_currency_full (.num ((1234567 : ℕ) : ℚ)))) =
      ((1234567 : ℕ) : ℚ) :=
  C7_amended 1234567 (by norm_num)

/-! # Claim C5: the top-deals ranking -/

theorem dealKey_neg2 : dealKey ⟨"A", "Q1", .str "-2"⟩ = -2 := by
  have hp : parseFloatRep (trimWs (stripDollarComma "-2".data)) = some (-2, 0) := by decide
  show (if "-2" = "Undisclosed" then (-1 : ℚ)
    else
      match parseFloatL (trimWs (stripDollarComma "-2".data)) with
      | some v => v
      | none => -1) = -2
  rw [if_neg (by decide)]
  unfold parseFloatL
  rw [hp]
  show repToRat (-2, 0) = -2
  norm_num [repToRat]

/-- Claim C5, counterexample: the sentinel for Undisclosed at the
top-deals ranking is `-1` (src/app.py:1036-1043), which ranks above a
disclosed negative amount: with records of amount `"-2"` and
`"Undisclosed"`, `nlargest(1, ...)` returns the Undisclosed record, so
Undisclosed does not rank below all Disclosed values. -/
theorem C5_counterexample :
    top_n 1 [⟨"A", "Q1", .str "-2"⟩, ⟨"B", "Q1", .str "Undisclosed"⟩] =
      [⟨"B", "Q1", .str "Undisclosed"⟩] ∧
    dealKey ⟨"A", "Q1", .str "-2"⟩ = -2 ∧
    dealKey ⟨"B", "Q1", .str "Undisclosed"⟩ = -1 := by
  refine ⟨?_, dealKey_neg2, rfl⟩
  have hrel : ¬ topRel (0, (⟨"A", "Q1", .str "-2"⟩ : DealRecord))
      (1, (⟨"B", "Q1", .str "Undisclosed"⟩ : DealRecord)) := by
    unfold topRel
    rw [show dealKey (0, (⟨"A", "Q1", .str "-2"⟩ : DealRecord)).2 = -2 from dealKey_neg2,
      show dealKey (1, (⟨"B", "Q1", .str "Undisclosed"⟩ : DealRecord)).2 = -1 from rfl]
    push_neg
    norm_num
  have hsort : List.insertionSort topRel
      [(0, (⟨"A", "Q1", .str "-2"⟩ : DealRecord)), (1, ⟨"B", "Q1", .str "Undisclosed"⟩)] =
      [(1, ⟨"B", "Q1", .str "Undisclosed"⟩), (0, ⟨"A", "Q1", .str "-2"⟩)] := by
    simp [List.insertionSort, List.orderedInsert, hrel]
  unfold top_n rankedDeals
  rw [show ([⟨"A", "Q1", .str "-2"⟩, ⟨"B", "Q1", .str "Undisclosed"⟩] :
    List DealRecord).enum =
    [(0, (⟨"A", "Q1", .str "-2"⟩ : DealRecord)), (1, ⟨"B", "Q1", .str "Undisclosed"⟩)] from rfl,
    hsort]
  rfl

/-- Claim C5, amended: `top_n` returns at most `n` records; the input is
a permutation of the returned records and a remainder whose keys are all
bounded by the keys of the returned records; on equal keys the ranking
preserves the original positions in increasing order (stable selection);
and the Undisclosed sentinel `-1` ranks below every disclosed amount that
is nonnegative (but above disclosed amounts smaller than `-1`, as the
counterexample shows). -/
theorem C5_amended (n : ℕ) (R : List DealRecord) :
    (top_n n R).length ≤ n ∧
    (∃ rest, R.Perm (top_n n R ++ rest) ∧
      ∀ a ∈ top_n n R, ∀ b ∈ rest, dealKey b ≤ dealKey a) ∧
    List.Pairwise (fun a b => dealKey a.2 = dealKey b.2 → a.1 < b.1)
      ((rankedDeals R).take n) ∧
    parse_to_numeric_sort (.str "Undisclosed") = -1 ∧
    (∀ s : String, ∀ v : ℚ, s ≠ "Undisclosed" →
      parseFloatL (trimWs (stripDollarComma s.data)) = some v → 0 ≤ v →
      parse_to_numeric_sort (.str "Undisclosed") < parse_to_numeric_sort (.str s)) := by
  have hsorted : List.Sorted topRel (rankedDeals R) :=
    List.sorted_insertionSort topRel R.enum
  have hperm : (rankedDeals R).Perm R.enum := List.perm_insertionSort topRel R.enum
  refine ⟨?_, ?_, ?_, rfl, ?_⟩
  · unfold top_n
    rw [List.length_map, List.length_take]
    exact min_le_left _ _
  · refine ⟨((rankedDeals R).drop n).map (fun p => p.2), ?_, ?_⟩
    · have h1 : top_n n R ++ ((rankedDeals R).drop n).map (fun p => p.2) =
          (rankedDeals R).map (fun p => p.2) := by
        unfold top_n
        rw [← List.map_append, List.take_append_drop]
      rw [h1]
      have h2 : ((rankedDeals R).map (fun p => p.2)).Perm (R.enum.map (fun p => p.2)) :=
        hperm.map _
      have h3 : R.enum.map (fun p => p.2) = R := List.enum_map_snd R
      exact (h3 ▸ h2).symm
    · intro a ha b hb
      unfold top_n at ha
      rcases List.mem_map.mp ha with ⟨pa, hpa, rfl⟩
      rcases List.mem_map.mp hb with ⟨pb, hpb, rfl⟩
      have hrel := hsorted.rel_of_mem_take_of_mem_drop hpa hpb
      rcases hrel with h | ⟨h, _⟩
      · exact le_of_lt h
      · exact le_of_eq h.symm
  · have hpw : List.Pairwise topRel ((rankedDeals R).take n) :=
      hsorted.sublist (List.take_sublist n _)
    have hnd : ((rankedDeals R).map Prod.fst).Nodup :=
      ((hperm.map Prod.fst).nodup_iff).mpr (List.nodup_enum_map_fst R)
    have hne : List.Pairwise (fun a b : ℕ × DealRecord => a.1 ≠ b.1)
        ((rankedDeals R).take n) :=
      (List.pairwise_map.mp hnd).sublist (List.take_sublist n _)
    refine (hpw.and hne).imp ?_
    rintro a b ⟨hr, hab⟩ hk
    rcases hr with h | ⟨_, h2⟩
    · rw [hk] at h
      exact absurd h (lt_irrefl _)
    · exact lt_of_le_of_ne h2 hab
  · intro s v hs hp hv
    have h2 : parse_to_numeric_sort (.str s) = v := by
      show (if s = "Undisclosed" then (-1 : ℚ)
        else
          match parseFloatL (trimWs (stripDollarComma s.data)) with
          | some v => v
          | none => -1) = v
      rw [if_neg hs, hp]
    rw [h2]
    show (-1 : ℚ) < v
    linarith
